import Mathlib

/-
Verification development for the query-aware retrieval reranking engine of
src/backend/rag_pipeline.py.

Python strings are modelled as `List Char`; the regular expressions of the
source are modelled as explicit scanners over the character list.  The
character classes of the source regexes (\d, \b, \w, whitespace, lowering)
are modelled at their ASCII meaning, which is the alphabet the corpus and
the spec use.
-/

/-- Character is an ASCII decimal digit: models the regex class \d. -/
def isDigitC (c : Char) : Bool := 48 ≤ c.toNat && c.toNat ≤ 57

/-- Character is ASCII whitespace: models Python str.split() separators. -/
def isSpaceChar (c : Char) : Bool :=
  c.toNat = 32 || c.toNat = 9 || c.toNat = 10 || c.toNat = 13 || c.toNat = 11 || c.toNat = 12

/-- Character is a word character: models the regex class \w (ASCII). -/
def isWordChar (c : Char) : Bool :=
  (48 ≤ c.toNat && c.toNat ≤ 57) || (65 ≤ c.toNat && c.toNat ≤ 90) ||
  (97 ≤ c.toNat && c.toNat ≤ 122) || c.toNat = 95

/-- ASCII lowering of one character: models Python str.lower(). -/
def toLowerC (c : Char) : Char :=
  if 65 ≤ c.toNat ∧ c.toNat ≤ 90 then Char.ofNat (c.toNat + 32) else c

/-- Lowering of a whole string. -/
def lowerStr (s : List Char) : List Char := s.map toLowerC

/-- Numeric value of a digit character. -/
def digitVal (c : Char) : Nat := c.toNat - 48

/-- Decimal parse of a digit string: models Python int() on the slices taken
by detect_query_years (which are always digit strings). -/
def parseNat (s : List Char) : Nat := s.foldl (fun acc c => acc * 10 + digitVal c) 0

/-- Decimal digit character for a value below 10. -/
def digitChar (n : Nat) : Char := Char.ofNat (48 + n)

/-- Fuelled decimal rendering of a natural number (the fuel is only a
termination device; `natStr` always supplies enough). -/
def natStrAux : Nat → Nat → List Char
  | 0, _ => []
  | fuel + 1, n => if n < 10 then [digitChar n] else natStrAux fuel (n / 10) ++ [digitChar (n % 10)]

/-- Decimal rendering of a natural number: models Python str() on ints. -/
def natStr (n : Nat) : List Char := natStrAux (n + 1) n

/-- Last two characters of a string, with Python slice clamping: models s[-2:]. -/
def lastTwo (s : List Char) : List Char := s.drop (s.length - 2)

/-- Boolean test that `p` starts the string `s`. -/
def startsWithC : List Char → List Char → Bool
  | [], _ => true
  | _ :: _, [] => false
  | a :: p, b :: s => a == b && startsWithC p s

/-- Boolean substring containment: models the Python expression p in s. -/
def isSubstrOf : List Char → List Char → Bool
  | p, [] => startsWithC p []
  | p, x :: t => startsWithC p (x :: t) || isSubstrOf p t

/-- Accumulating worker for whitespace splitting. -/
def splitWsAux : List Char → List Char → List (List Char)
  | [], acc => if acc = [] then [] else [acc.reverse]
  | c :: rest, acc =>
    if isSpaceChar c then
      if acc = [] then splitWsAux rest [] else acc.reverse :: splitWsAux rest []
    else splitWsAux rest (c :: acc)

/-- Whitespace split dropping empty pieces: models Python str.split(). -/
def splitWs (s : List Char) : List (List Char) := splitWsAux s []

/-- One attempted match of the regex 20(\d\d)-(\d\d) at the head of the string,
returning the formatted year together with the remainder of the input, exactly
as re.findall consumes it. -/
def matchYearAt (s : List Char) : Option (List Char × List Char) :=
  match s with
  | c1 :: c2 :: a :: b :: h :: c :: d :: rest =>
    if c1 = '2' ∧ c2 = '0' ∧ isDigitC a = true ∧ isDigitC b = true ∧ h = '-' ∧
        isDigitC c = true ∧ isDigitC d = true then
      some (['2', '0', a, b, '-', c, d], rest)
    else none
  | _ => none

/-- Fuelled left-to-right scan of all non-overlapping matches of
20(\d\d)-(\d\d): models re.findall plus the f-string rebuild of each match
in detect_query_years.  The fuel is only a termination device. -/
def scanYearsAux : Nat → List Char → List (List Char)
  | 0, _ => []
  | _ + 1, [] => []
  | fuel + 1, x :: t =>
    match matchYearAt (x :: t) with
    | some (y, rest) => y :: scanYearsAux fuel rest
    | none => scanYearsAux fuel t

/-- All year tokens of a text, in scan order. -/
def scanYears (s : List Char) : List (List Char) := scanYearsAux s.length s

/-- The year pattern 20(\d\d)-(\d\d) matches the text `s` at offset `i` and
yields the token `y`. -/
def yearPatternAt (s : List Char) (i : Nat) (y : List Char) : Prop :=
  ∃ a b c d, isDigitC a = true ∧ isDigitC b = true ∧ isDigitC c = true ∧ isDigitC d = true ∧
    y = ['2', '0', a, b, '-', c, d] ∧ (s.drop i).take (7 : Nat) = y

/-- The word `w` occurs in `s` at offset `i` with \b boundaries on both sides. -/
def wordAt (w s : List Char) (i : Nat) : Bool :=
  decide ((s.drop i).take w.length = w) &&
  (decide (i = 0) || !(isWordChar (s.getD (i - 1) ' '))) &&
  (decide (s.length ≤ i + w.length) || !(isWordChar (s.getD (i + w.length) ' ')))

/-- The word `w` occurs somewhere in `s` with \b boundaries. -/
def containsWordB (s w : List Char) : Bool :=
  (List.range (s.length + 1)).any (fun i => wordAt w s i)

/-- Test for a range-indicating word: models
re.search of \b(between|from|to|and)\b with IGNORECASE in detect_query_years. -/
def hasRangeWord (q : List Char) : Bool :=
  containsWordB (lowerStr q) (("between".toList)) ||
  containsWordB (lowerStr q) (("from".toList)) ||
  containsWordB (lowerStr q) (("to".toList)) ||
  containsWordB (lowerStr q) (("and".toList))

/-- Fiscal-year string built by the range-expansion loop of
detect_query_years: the f-string of y and str(y + 1)[-2:]. -/
def fyString (y : Nat) : List Char := natStr y ++ '-' :: lastTwo (natStr (y + 1))

/-- Embedding of detect_query_years of src/backend/rag_pipeline.py. -/
def detect_query_years (q : List Char) : List (List Char) :=
  let years := scanYears q
  if hasRangeWord q = true ∧ years.length = 2 then
    let start_year := parseNat ((years.headD []).take 4)
    let end_year := parseNat ((years.getLastD []).take 4)
    (List.range' start_year (end_year + 1 - start_year)).map fyString
  else years

/-- One attempted match of the regex 20(\d\d)[_-](\d\d) at the head of the
string, returning the hyphen-normalized year. -/
def matchMetaYearAt (s : List Char) : Option (List Char) :=
  match s with
  | c1 :: c2 :: a :: b :: h :: c :: d :: _ =>
    if c1 = '2' ∧ c2 = '0' ∧ isDigitC a = true ∧ isDigitC b = true ∧ (h = '-' ∨ h = '_') ∧
        isDigitC c = true ∧ isDigitC d = true then
      some ['2', '0', a, b, '-', c, d]
    else none
  | _ => none

/-- Leftmost match of 20(\d\d)[_-](\d\d): models re.search in
extract_year_from_metadata. -/
def searchMetaYear : List Char → Option (List Char)
  | [] => none
  | x :: t =>
    match matchMetaYearAt (x :: t) with
    | some y => some y
    | none => searchMetaYear t

/-- Metadata of a retrieved document.  The source holds the filename
(metadata.get of source with default empty string is modelled by an empty
source); the page field holds the rendered page value, with the literal
N/A standing for an absent page. -/
structure DocMetadata where
  source : List Char
  page : List Char
deriving DecidableEq

/-- A retrieved document: page content plus metadata.  Equality is structural,
matching the pydantic field-wise equality that the Python membership test
final_docs uses. -/
structure Document where
  page_content : List Char
  metadata : DocMetadata
deriving DecidableEq

/-- Embedding of extract_year_from_metadata of src/backend/rag_pipeline.py. -/
def extract_year_from_metadata (m : DocMetadata) : Option (List Char) :=
  searchMetaYear m.source

/-- Query terms of rerank_docs: the set of whitespace tokens of the lowered
query.  The Python set is modelled as the deduplicated token list; scoring
only sums over it and tests membership, both order-independent. -/
def queryTerms (query : List Char) : List (List Char) :=
  (splitWs (lowerStr query)).dedup

/-- Boost terms of rerank_docs. -/
def boostTerms (query : List Char) : List (List Char) :=
  if isSubstrOf (("sanctioned".toList)) (lowerStr query) = true ∨
      isSubstrOf (("disbursed".toList)) (lowerStr query) = true then
    [("sanctioned".toList), ("disbursed".toList), ("allocated".toList)]
  else []

/-- Score of one document in rerank_docs: term hits (boost hits at 3, others
at 1), plus 10 for a source year among the requested years, minus 5 for the
substring cumulative when years were requested. -/
def score_doc (query : List Char) (requested : List (List Char)) (d : Document) : Int :=
  let content_lower := lowerStr d.page_content
  let base : Int :=
    (((queryTerms query).filter (fun t => isSubstrOf t content_lower)).map
      (fun t => if t ∈ boostTerms query then (3 : Int) else 1)).sum
  let yearBonus : Int :=
    match extract_year_from_metadata d.metadata with
    | some y => if y ∈ requested then 10 else 0
    | none => 0
  let penalty : Int :=
    if requested ≠ [] ∧ isSubstrOf (("cumulative".toList)) content_lower = true then 5 else 0
  base + yearBonus - penalty

/-- Coverage pass of rerank_docs: scan the sorted scored documents once,
keeping the first document of each not-yet-covered requested year, and break
as soon as the covered-year count reaches the requested count.  The Python
set years_covered is modelled as a duplicate-free list. -/
def coverLoop (requested : List (List Char)) :
    List (Int × Document) → List (List Char) → List Document
  | [], _ => []
  | (_, d) :: rest, covered =>
    match extract_year_from_metadata d.metadata with
    | some y =>
      if y ∈ requested ∧ y ∉ covered then
        if (y :: covered).length = requested.length then [d]
        else d :: coverLoop requested rest (y :: covered)
      else coverLoop requested rest covered
    | none => coverLoop requested rest covered

/-- Fill pass of rerank_docs: scan the sorted scored documents from the top
and append every document not already selected while fewer than 15 documents
are selected. -/
def fillLoop : List Document → List (Int × Document) → List Document
  | finalDocs, [] => finalDocs
  | finalDocs, (_, d) :: rest =>
    if d ∉ finalDocs ∧ finalDocs.length < 15 then fillLoop (finalDocs ++ [d]) rest
    else fillLoop finalDocs rest

/-- Year-coverage selection of rerank_docs over the already-sorted scored
documents: coverage pass then fill pass, capped at 15; with no requested
years, just the top 15 by the sorted order. -/
def select_docs (scored : List (Int × Document)) (requested : List (List Char)) :
    List Document :=
  if requested = [] then (scored.take 15).map (fun p => p.2)
  else (fillLoop (coverLoop requested scored []) scored).take 15

/-- Embedding of rerank_docs of src/backend/rag_pipeline.py: score every
document, stable-sort descending by score (Python list.sort with reverse is
stable), then select with year coverage. -/
def rerank_docs (docs : List Document) (query : List Char) : List Document :=
  let requested := detect_query_years query
  let scored := docs.map (fun d => (score_doc query requested d, d))
  let sorted := List.insertionSort (fun a b : Int × Document => b.1 ≤ a.1) scored
  select_docs sorted requested

/-- Header-plus-content block for one document: models the f-strings of
format_docs for the 1-based index `i`. -/
def formatChunk (i : Nat) (d : Document) : List Char :=
  let year := extract_year_from_metadata d.metadata
  let year_info : List Char :=
    match year with
    | some y => ' ' :: '[' :: 'F' :: 'Y' :: (y ++ [']'])
    | none => []
  ("--- Source ".toList) ++ natStr i ++ (": ".toList) ++ d.metadata.source ++ year_info ++
    (" (Page ".toList) ++ d.metadata.page ++ (") ---".toList) ++ '\n' :: d.page_content ++ ['\n']

/-- Embedding of format_docs of src/backend/rag_pipeline.py: the blocks of
all documents joined by blank lines. -/
def format_docs (docs : List Document) : List Char :=
  List.intercalate ('\n' :: ['\n']) ((docs.enumFrom 1).map (fun p => formatChunk p.1 p.2))

/-- Spec-side fiscal-year formatting for the range expansion: the start year,
a hyphen, and the zero-padded last two digits of the successor year. -/
def pad2 (n : Nat) : List Char := [digitChar (n / 10), digitChar (n % 10)]

/-- Spec-side rendering of one expanded fiscal year. -/
def specFY (y : Nat) : List Char := natStr y ++ '-' :: pad2 ((y + 1) % 100)

/-- Helper: the selection is empty when the scored candidate list is empty. -/
lemma select_docs_nil (requested : List (List Char)) : select_docs [] requested = [] := by
  unfold select_docs
  split
  · simp
  · simp [coverLoop, fillLoop]

/-- Helper: the selection never exceeds 15 documents. -/
lemma select_docs_length_le (scored : List (Int × Document)) (requested : List (List Char)) :
    (select_docs scored requested).length ≤ 15 := by
  unfold select_docs
  split
  · simp [List.length_take]
  · simp [List.length_take]

/-- C7: for every candidate list and every requestedYears set, the
Year-Coverage Selector returns at most 15 passages; consequently the whole
reranking returns at most 15 passages. -/
theorem C7_selection_cap :
    (∀ (scored : List (Int × Document)) (requested : List (List Char)),
      (select_docs scored requested).length ≤ 15) ∧
    (∀ (docs : List Document) (query : List Char), (rerank_docs docs query).length ≤ 15) := by
  constructor
  · intro scored requested
    exact select_docs_length_le scored requested
  · intro docs query
    unfold rerank_docs
    exact select_docs_length_le _ _

/-- C9: on an empty candidate list the scorer and selector return an empty
selection for every query, and the context assembler returns the empty
context string on an empty selection. -/
theorem C9_empty_input_safety :
    (∀ query : List Char, rerank_docs [] query = []) ∧ format_docs [] = [] := by
  constructor
  · intro query
    unfold rerank_docs
    simp only [List.map_nil]
    show select_docs [] _ = []
    exact select_docs_nil _
  · simp [format_docs, List.intercalate]

/-- C2 counterexample: year extraction on the text FY2020-21 and FY2022-23
does not return the two-element list of the two literal years, because the
word and triggers range expansion. -/
theorem C2_counterexample :
    detect_query_years (("FY2020-21 and FY2022-23".toList)) ≠
      [("2020-21".toList), ("2022-23".toList)] := by
  decide

/-- C2 amended: year extraction on the text FY2020-21 and FY2022-23 returns
the three-element list of consecutive fiscal years 2020-21, 2021-22 and
2022-23, since the text contains the range word and, so the two found years
are expanded into the full range. -/
theorem C2_amended_extraction :
    detect_query_years (("FY2020-21 and FY2022-23".toList)) =
      [("2020-21".toList), ("2021-22".toList), ("2022-23".toList)] := by
  decide

/-- C3 counterexample: year extraction does not remove duplicate fiscal-year
values; on the text 2020-21 2020-21 the returned list contains the year
2020-21 twice. -/
theorem C3_counterexample :
    ¬ (detect_query_years (("2020-21 2020-21".toList))).Nodup := by
  decide

/-- Helper: a successful head match is exactly a year-pattern occurrence at
offset 0, and consumes seven characters. -/
lemma matchYearAt_some {s y rest : List Char} (h : matchYearAt s = some (y, rest)) :
    yearPatternAt s 0 y ∧ rest = s.drop 7 ∧ s.length = rest.length + 7 := by
  unfold matchYearAt at h
  split at h
  next c1 c2 a b hh c d r =>
    split at h
    next hc =>
      obtain ⟨h1, h2, h3, h4, h5, h6, h7⟩ := hc
      rw [Option.some.injEq, Prod.mk.injEq] at h
      obtain ⟨hy, hr⟩ := h
      subst h1 h2 h5 hy hr
      exact ⟨⟨a, b, c, d, h3, h4, h6, h7, rfl, rfl⟩, rfl, by simp only [List.length_cons]⟩
    next => exact absurd h (by simp)
  next => exact absurd h (by simp)

/-- Helper: a year-pattern occurrence in a suffix shifts to the full text. -/
lemma yearPatternAt_shift {s rest : List Char} {k q : Nat} {y : List Char}
    (hrest : rest = s.drop k) (h : yearPatternAt rest q y) : yearPatternAt s (q + k) y := by
  obtain ⟨a, b, c, d, h1, h2, h3, h4, h5, h6⟩ := h
  refine ⟨a, b, c, d, h1, h2, h3, h4, h5, ?_⟩
  have hdd : List.drop q rest = List.drop (q + k) s := by
    rw [hrest, List.drop_drop, Nat.add_comm]
  rw [← hdd]
  exact h6

/-- Helper: every token produced by the fuelled scan occurs in the text at a
strictly increasing sequence of offsets, each a year-pattern match. -/
lemma scanYearsAux_sound : ∀ (fuel : Nat) (s : List Char),
    ∃ ps : List Nat, List.Pairwise (· < ·) ps ∧ ps.length = (scanYearsAux fuel s).length ∧
      ∀ p ∈ ps.zip (scanYearsAux fuel s), yearPatternAt s p.1 p.2 := by
  intro fuel
  induction fuel with
  | zero =>
    intro s
    exact ⟨[], by simp, by simp [scanYearsAux], by simp [scanYearsAux]⟩
  | succ n ih =>
    intro s
    match s with
    | [] => exact ⟨[], by simp, by simp [scanYearsAux], by simp [scanYearsAux]⟩
    | x :: t =>
      cases hm : matchYearAt (x :: t) with
      | some yr =>
        obtain ⟨y, rest⟩ := yr
        obtain ⟨hpat, hrest, _⟩ := matchYearAt_some hm
        obtain ⟨ps, hpw, hplen, hpzip⟩ := ih rest
        have hscan : scanYearsAux (n + 1) (x :: t) = y :: scanYearsAux n rest := by
          simp [scanYearsAux, hm]
        refine ⟨0 :: ps.map (· + 7), ?_, ?_, ?_⟩
        · constructor
          · intro q hq
            simp only [List.mem_map] at hq
            obtain ⟨p, _, rfl⟩ := hq
            omega
          · rw [List.pairwise_map]
            exact hpw.imp (by omega)
        · rw [hscan]
          simp [hplen]
        · intro p hp
          rw [hscan, List.zip_cons_cons] at hp
          rcases List.mem_cons.mp hp with h | h
          · subst h
            exact hpat
          · rw [List.zip_map_left, List.mem_map] at h
            obtain ⟨q, hq, rfl⟩ := h
            exact yearPatternAt_shift hrest (hpzip _ hq)
      | none =>
        obtain ⟨ps, hpw, hplen, hpzip⟩ := ih t
        have hscan : scanYearsAux (n + 1) (x :: t) = scanYearsAux n t := by
          simp [scanYearsAux, hm]
        refine ⟨ps.map (· + 1), ?_, ?_, ?_⟩
        · rw [List.pairwise_map]
          exact hpw.imp (by omega)
        · rw [hscan]
          simp [hplen]
        · intro p hp
          rw [hscan, List.zip_map_left, List.mem_map] at hp
          obtain ⟨q, hq, rfl⟩ := hp
          exact yearPatternAt_shift (show t = (x :: t).drop 1 from rfl) (hpzip _ hq)

/-- Helper: soundness of the year scanner, with occurrence offsets. -/
lemma scanYears_sound (s : List Char) :
    ∃ ps : List Nat, List.Pairwise (· < ·) ps ∧ ps.length = (scanYears s).length ∧
      ∀ p ∈ ps.zip (scanYears s), yearPatternAt s p.1 p.2 :=
  scanYearsAux_sound s.length s

/-- Helper: a member of the right list of a zip of equal-length lists is the
second component of some zipped pair. -/
lemma exists_mem_zip {α β : Type} : ∀ (ps : List α) (ts : List β) (y : β),
    ps.length = ts.length → y ∈ ts → ∃ i, (i, y) ∈ ps.zip ts := by
  intro ps
  induction ps with
  | nil =>
    intro ts y hlen hy
    cases ts with
    | nil => simp at hy
    | cons a l => simp at hlen
  | cons p ps ih =>
    intro ts y hlen hy
    cases ts with
    | nil => simp at hy
    | cons a l =>
      rcases List.mem_cons.mp hy with h | h
      · exact ⟨p, by simp [h]⟩
      · obtain ⟨i, hi⟩ := ih l y (by simpa using hlen) h
        exact ⟨i, List.mem_cons_of_mem _ hi⟩

/-- C8: every token extracted by the year scanner comes from an exact
occurrence of the pattern 20 digits hyphen two digits in the text; the
malformed token 2021-2 yields no match for query-year detection and no match
for source-metadata year extraction. -/
theorem C8_year_token_soundness :
    (∀ (s y : List Char), y ∈ scanYears s → ∃ i, yearPatternAt s i y) ∧
    detect_query_years (("2021-2".toList)) = [] ∧
    extract_year_from_metadata ⟨("2021-2".toList), ("1".toList)⟩ = none := by
  refine ⟨?_, by decide, by decide⟩
  intro s y hy
  obtain ⟨ps, _, hlen, hzip⟩ := scanYears_sound s
  obtain ⟨i, hi⟩ := exists_mem_zip ps (scanYears s) y hlen hy
  exact ⟨i, hzip _ hi⟩

/-- C8 witness: the token 2021-22 is extracted from the text 2021-22 and
indeed occurs there as a year-pattern match. -/
theorem C8_year_token_soundness_witness :
    (("2021-22".toList) ∈ scanYears (("2021-22".toList))) ∧
    ∃ i, yearPatternAt (("2021-22".toList)) i (("2021-22".toList)) :=
  ⟨by decide, C8_year_token_soundness.1 _ _ (by decide)⟩

/-- C3 amended: when range expansion does not trigger, year extraction
returns the matched tokens in order of occurrence in the text (the tokens
match the year pattern at strictly increasing offsets); duplicate values are
retained, not removed. -/
theorem C3_amended_order_of_occurrence (t : List Char)
    (h : ¬ (hasRangeWord t = true ∧ (scanYears t).length = 2)) :
    ∃ ps : List Nat, List.Pairwise (· < ·) ps ∧ ps.length = (detect_query_years t).length ∧
      ∀ p ∈ ps.zip (detect_query_years t), yearPatternAt t p.1 p.2 := by
  have hd : detect_query_years t = scanYears t := by
    unfold detect_query_years
    exact if_neg h
  rw [hd]
  exact scanYears_sound t

/-- C3 amended witness: on the duplicate-year text 2020-21 2020-21 the
expansion does not trigger and the order-of-occurrence property holds. -/
theorem C3_amended_order_witness :
    (¬ (hasRangeWord (("2020-21 2020-21".toList)) = true ∧
        (scanYears (("2020-21 2020-21".toList))).length = 2)) ∧
    ∃ ps : List Nat, List.Pairwise (· < ·) ps ∧
      ps.length = (detect_query_years (("2020-21 2020-21".toList))).length ∧
      ∀ p ∈ ps.zip (detect_query_years (("2020-21 2020-21".toList))),
        yearPatternAt (("2020-21 2020-21".toList)) p.1 p.2 :=
  ⟨by decide, C3_amended_order_of_occurrence _ (by decide)⟩

/-- Helper: the fuel of the decimal renderer is irrelevant once sufficient. -/
lemma natStrAux_fuel : ∀ (f1 f2 n : Nat), n < f1 → n < f2 → natStrAux f1 n = natStrAux f2 n := by
  intro f1
  induction f1 with
  | zero => intro f2 n h1 h2; omega
  | succ k ih =>
    intro f2 n h1 h2
    cases f2 with
    | zero => omega
    | succ m =>
      simp only [natStrAux]
      by_cases h10 : n < 10
      · simp [h10]
      · have hd : n / 10 < n := Nat.div_lt_self (by omega) (by omega)
        simp only [if_neg h10]
        rw [ih m (n / 10) (by omega) (by omega)]

/-- Helper: one-step unfolding of the fuelled decimal renderer. -/
lemma natStrAux_succ (fuel n : Nat) :
    natStrAux (fuel + 1) n =
      if n < 10 then [digitChar n] else natStrAux fuel (n / 10) ++ [digitChar (n % 10)] := rfl

/-- Helper: recursion equation of the decimal renderer. -/
lemma natStr_eq (n : Nat) :
    natStr n = if n < 10 then [digitChar n] else natStr (n / 10) ++ [digitChar (n % 10)] := by
  unfold natStr
  rw [natStrAux_succ]
  by_cases h10 : n < 10
  · rw [if_pos h10, if_pos h10]
  · have hd : n / 10 < n := Nat.div_lt_self (by omega) (by omega)
    rw [if_neg h10, if_neg h10,
      natStrAux_fuel n (n / 10 + 1) (n / 10) (by omega) (by omega)]

/-- Helper: the decimal rendering of a four-digit number, digit by digit. -/
lemma natStr_four_digits (m : Nat) (h1 : 1000 ≤ m) (h2 : m ≤ 9999) :
    natStr m = [digitChar (m / 1000), digitChar (m / 100 % 10), digitChar (m / 10 % 10),
      digitChar (m % 10)] := by
  rw [natStr_eq m, if_neg (by omega)]
  rw [natStr_eq (m / 10), if_neg (by omega)]
  rw [natStr_eq (m / 10 / 10), if_neg (by omega)]
  rw [natStr_eq (m / 10 / 10 / 10), if_pos (by omega)]
  have e1 : m / 10 / 10 = m / 100 := by omega
  rw [e1]
  have e2 : m / 100 / 10 = m / 1000 := by omega
  rw [e2]
  simp

/-- Helper: the last two characters of a rendered four-digit number are its
value modulo 100, zero padded. -/
lemma lastTwo_natStr (m : Nat) (h1 : 1000 ≤ m) (h2 : m ≤ 9999) :
    lastTwo (natStr m) = pad2 (m % 100) := by
  rw [natStr_four_digits m h1 h2]
  unfold lastTwo pad2
  have e1 : m % 100 / 10 = m / 10 % 10 := by omega
  have e2 : m % 100 % 10 = m % 10 := by omega
  rw [e1, e2]
  rfl

/-- Helper: the code's fiscal-year rendering agrees with the spec's
zero-padded rendering on all years the scanner can produce. -/
lemma fyString_eq_specFY (y : Nat) (h1 : 2000 ≤ y) (h2 : y ≤ 2099) : fyString y = specFY y := by
  unfold fyString specFY
  rw [lastTwo_natStr (y + 1) (by omega) (by omega)]

/-- Helper: every scanned token has the exact shape 2 0 d d hyphen d d. -/
lemma scanYears_shape {s y : List Char} (hy : y ∈ scanYears s) :
    ∃ a b c d, isDigitC a = true ∧ isDigitC b = true ∧ isDigitC c = true ∧ isDigitC d = true ∧
      y = ['2', '0', a, b, '-', c, d] := by
  obtain ⟨ps, _, hlen, hzip⟩ := scanYears_sound s
  obtain ⟨i, hi⟩ := exists_mem_zip ps (scanYears s) y hlen hy
  obtain ⟨a, b, c, d, h1, h2, h3, h4, h5, _⟩ := hzip _ hi
  exact ⟨a, b, c, d, h1, h2, h3, h4, h5⟩

/-- Helper: the parsed start year of a scanned token lies between 2000 and 2099. -/
lemma parseNat_year {a b : Char} (ha : isDigitC a = true) (hb : isDigitC b = true) :
    2000 ≤ parseNat ['2', '0', a, b] ∧ parseNat ['2', '0', a, b] ≤ 2099 := by
  simp only [isDigitC, Bool.and_eq_true, decide_eq_true_eq] at ha hb
  have c2 : ('2').toNat = 50 := by decide
  have c0 : ('0').toNat = 48 := by decide
  simp only [parseNat, digitVal, List.foldl]
  rw [c2, c0]
  omega

/-- Helper: the triggered branch of detect_query_years. -/
lemma detect_eq_expanded {q : List Char}
    (h : hasRangeWord q = true ∧ (scanYears q).length = 2) :
    detect_query_years q =
      (List.range' (parseNat (((scanYears q).headD []).take 4))
        (parseNat (((scanYears q).getLastD []).take 4) + 1 -
          parseNat (((scanYears q).headD []).take 4))).map fyString := by
  unfold detect_query_years
  exact if_pos h

/-- C4: whenever exactly two year tokens are found and a range word is
present, year extraction returns every consecutive fiscal year from the first
token's start year through the second token's start year, each formatted as
the start year, a hyphen, and the zero-padded last two digits of the
successor year; in every other case it returns the scanned years unchanged. -/
theorem C4_range_expansion (t : List Char) :
    (hasRangeWord t = true → (scanYears t).length = 2 →
      detect_query_years t =
        (List.range' (parseNat (((scanYears t).headD []).take 4))
          (parseNat (((scanYears t).getLastD []).take 4) + 1 -
            parseNat (((scanYears t).headD []).take 4))).map specFY) ∧
    (¬ (hasRangeWord t = true ∧ (scanYears t).length = 2) →
      detect_query_years t = scanYears t) := by
  constructor
  · intro hw hlen
    rw [detect_eq_expanded ⟨hw, hlen⟩]
    obtain ⟨y1, y2, hy⟩ := List.length_eq_two.mp hlen
    have hy1 : y1 ∈ scanYears t := by rw [hy]; simp
    have hy2 : y2 ∈ scanYears t := by rw [hy]; simp
    obtain ⟨a1, b1, c1, d1, ha1, hb1, _, _, he1⟩ := scanYears_shape hy1
    obtain ⟨a2, b2, c2, d2, ha2, hb2, _, _, he2⟩ := scanYears_shape hy2
    have ht1 : (((scanYears t).headD []).take 4) = ['2', '0', a1, b1] := by
      rw [hy, he1]
      rfl
    have ht2 : (((scanYears t).getLastD []).take 4) = ['2', '0', a2, b2] := by
      rw [hy, he2]
      rfl
    have hn1 := parseNat_year ha1 hb1
    have hn2 := parseNat_year ha2 hb2
    apply List.map_congr_left
    intro y hmem
    rw [List.mem_range'_1] at hmem
    rw [ht1, ht2] at hmem
    apply fyString_eq_specFY
    · omega
    · omega
  · intro h
    unfold detect_query_years
    exact if_neg h

/-- C4 witness: on the text from 2020-21 to 2022-23 the expansion triggers
and produces the three consecutive spec-formatted years. -/
theorem C4_range_expansion_witness :
    hasRangeWord (("from 2020-21 to 2022-23".toList)) = true ∧
    (scanYears (("from 2020-21 to 2022-23".toList))).length = 2 ∧
    detect_query_years (("from 2020-21 to 2022-23".toList)) =
      (List.range'
        (parseNat (((scanYears (("from 2020-21 to 2022-23".toList))).headD []).take 4))
        (parseNat (((scanYears (("from 2020-21 to 2022-23".toList))).getLastD []).take 4) + 1 -
          parseNat (((scanYears (("from 2020-21 to 2022-23".toList))).headD []).take 4))).map
        specFY :=
  ⟨by decide, by decide, (C4_range_expansion _).1 (by decide) (by decide)⟩

/-- C10: when range expansion triggers and the second token's start year is
strictly below the first token's, year extraction returns the empty list,
discarding both found years. -/
theorem C10_reversed_range_empty (t : List Char)
    (hw : hasRangeWord t = true) (hlen : (scanYears t).length = 2)
    (hlt : parseNat (((scanYears t).getLastD []).take 4) <
      parseNat (((scanYears t).headD []).take 4)) :
    detect_query_years t = [] := by
  rw [detect_eq_expanded ⟨hw, hlen⟩]
  have hz : parseNat (((scanYears t).getLastD []).take 4) + 1 -
      parseNat (((scanYears t).headD []).take 4) = 0 := by omega
  rw [hz]
  rfl

/-- C10 witness: on the text from 2022-23 to 2020-21 the reversed range
yields an empty extraction. -/
theorem C10_reversed_range_empty_witness :
    hasRangeWord (("from 2022-23 to 2020-21".toList)) = true ∧
    (scanYears (("from 2022-23 to 2020-21".toList))).length = 2 ∧
    parseNat (((scanYears (("from 2022-23 to 2020-21".toList))).getLastD []).take 4) <
      parseNat (((scanYears (("from 2022-23 to 2020-21".toList))).headD []).take 4) ∧
    detect_query_years (("from 2022-23 to 2020-21".toList)) = [] :=
  ⟨by decide, by decide, by decide,
    C10_reversed_range_empty _ (by decide) (by decide) (by decide)⟩

/-- Helper: if some scored candidate has source year `y` and `y` is requested,
the coverage pass either already covered `y` or selects a document with
source year `y`. -/
lemma coverLoop_covers (requested : List (List Char)) (y : List Char) (hy : y ∈ requested) :
    ∀ (scored : List (Int × Document)) (covered : List (List Char)),
      covered.Nodup → covered ⊆ requested →
      (∃ p ∈ scored, extract_year_from_metadata p.2.metadata = some y) →
      y ∈ covered ∨ ∃ d ∈ coverLoop requested scored covered,
        extract_year_from_metadata d.metadata = some y := by
  intro scored
  induction scored with
  | nil =>
    intro covered _ _ hex
    obtain ⟨p, hp, _⟩ := hex
    simp at hp
  | cons sd rest ih =>
    obtain ⟨s, d⟩ := sd
    intro covered hnd hsub hex
    cases hext : extract_year_from_metadata d.metadata with
    | some yd =>
      by_cases hc : yd ∈ requested ∧ yd ∉ covered
      · have hnd' : (yd :: covered).Nodup := List.nodup_cons.mpr ⟨hc.2, hnd⟩
        have hsub' : (yd :: covered) ⊆ requested := List.cons_subset.mpr ⟨hc.1, hsub⟩
        by_cases hb : (yd :: covered).length = requested.length
        · have hcl : coverLoop requested ((s, d) :: rest) covered = [d] := by
            simp [coverLoop, hext, hc.1, hc.2, hb]
          rw [hcl]
          by_cases hyy : y = yd
          · right
            exact ⟨d, by simp, by rw [hext, hyy]⟩
          · left
            have hsp : List.Subperm (yd :: covered) requested := hnd'.subperm hsub'
            have hperm : List.Perm (yd :: covered) requested :=
              hsp.perm_of_length_le (by omega)
            have hmem : y ∈ yd :: covered := hperm.mem_iff.mpr hy
            rcases List.mem_cons.mp hmem with h | h
            · exact absurd h hyy
            · exact h
        · have hb2 : ¬ (covered.length + 1 = requested.length) := by
            simpa using hb
          have hcl : coverLoop requested ((s, d) :: rest) covered =
              d :: coverLoop requested rest (yd :: covered) := by
            simp [coverLoop, hext, hc.1, hc.2, hb2]
          rw [hcl]
          by_cases hyy : y = yd
          · right
            exact ⟨d, by simp, by rw [hext, hyy]⟩
          · have hex' : ∃ p ∈ rest, extract_year_from_metadata p.2.metadata = some y := by
              obtain ⟨p, hp, hpe⟩ := hex
              rcases List.mem_cons.mp hp with h | h
              · subst h
                dsimp only at hpe
                rw [hext] at hpe
                injection hpe with hyd
                exact absurd hyd.symm hyy
              · exact ⟨p, h, hpe⟩
            rcases ih (yd :: covered) hnd' hsub' hex' with h | ⟨d', hd', he'⟩
            · rcases List.mem_cons.mp h with h | h
              · exact absurd h hyy
              · exact Or.inl h
            · exact Or.inr ⟨d', List.mem_cons_of_mem _ hd', he'⟩
      · have hcl : coverLoop requested ((s, d) :: rest) covered =
            coverLoop requested rest covered := by
          simp [coverLoop, hext, hc]
        rw [hcl]
        obtain ⟨p, hp, hpe⟩ := hex
        rcases List.mem_cons.mp hp with h | h
        · subst h
          dsimp only at hpe
          rw [hext] at hpe
          injection hpe with hyd
          subst hyd
          left
          by_contra hnc
          exact hc ⟨hy, hnc⟩
        · exact ih covered hnd hsub ⟨p, h, hpe⟩
    | none =>
      have hcl : coverLoop requested ((s, d) :: rest) covered =
          coverLoop requested rest covered := by
        simp [coverLoop, hext]
      rw [hcl]
      obtain ⟨p, hp, hpe⟩ := hex
      rcases List.mem_cons.mp hp with h | h
      · subst h
        dsimp only at hpe
        rw [hext] at hpe
        exact absurd hpe (by simp)
      · exact ih covered hnd hsub ⟨p, h, hpe⟩

/-- Helper: the coverage pass selects at most one document per uncovered
requested year. -/
lemma coverLoop_length (requested : List (List Char)) :
    ∀ (scored : List (Int × Document)) (covered : List (List Char)),
      covered.Nodup → covered ⊆ requested →
      (coverLoop requested scored covered).length + covered.length ≤ requested.length := by
  intro scored
  induction scored with
  | nil =>
    intro covered hnd hsub
    have hle := (hnd.subperm hsub).length_le
    simpa [coverLoop] using hle
  | cons sd rest ih =>
    obtain ⟨s, d⟩ := sd
    intro covered hnd hsub
    cases hext : extract_year_from_metadata d.metadata with
    | some yd =>
      by_cases hc : yd ∈ requested ∧ yd ∉ covered
      · have hnd' : (yd :: covered).Nodup := List.nodup_cons.mpr ⟨hc.2, hnd⟩
        have hsub' : (yd :: covered) ⊆ requested := List.cons_subset.mpr ⟨hc.1, hsub⟩
        by_cases hb : (yd :: covered).length = requested.length
        · have hcl : coverLoop requested ((s, d) :: rest) covered = [d] := by
            simp [coverLoop, hext, hc.1, hc.2, hb]
          rw [hcl]
          simp only [List.length_cons, List.length_nil] at hb ⊢
          omega
        · have hb2 : ¬ (covered.length + 1 = requested.length) := by
            simpa using hb
          have hcl : coverLoop requested ((s, d) :: rest) covered =
              d :: coverLoop requested rest (yd :: covered) := by
            simp [coverLoop, hext, hc.1, hc.2, hb2]
          rw [hcl]
          have hrec := ih (yd :: covered) hnd' hsub'
          simp only [List.length_cons] at hrec ⊢
          omega
      · have hcl : coverLoop requested ((s, d) :: rest) covered =
            coverLoop requested rest covered := by
          simp [coverLoop, hext, hc]
        rw [hcl]
        exact ih covered hnd hsub
    | none =>
      have hcl : coverLoop requested ((s, d) :: rest) covered =
          coverLoop requested rest covered := by
        simp [coverLoop, hext]
      rw [hcl]
      exact ih covered hnd hsub

/-- Helper: the fill pass only appends, so the coverage selection stays a
prefix of the final list. -/
lemma fillLoop_keeps_acc : ∀ (l : List (Int × Document)) (acc : List Document),
    acc <+: fillLoop acc l := by
  intro l
  induction l with
  | nil =>
    intro acc
    exact ⟨[], by simp [fillLoop]⟩
  | cons sd rest ih =>
    obtain ⟨s, d⟩ := sd
    intro acc
    by_cases hc : d ∉ acc ∧ acc.length < 15
    · have hfl : fillLoop acc ((s, d) :: rest) = fillLoop (acc ++ [d]) rest := by
        simp [fillLoop, hc.1, hc.2]
      obtain ⟨r, hr⟩ := ih (acc ++ [d])
      exact ⟨d :: r, by rw [hfl, ← hr]; simp⟩
    · have hfl : fillLoop acc ((s, d) :: rest) = fillLoop acc rest := by
        simp [fillLoop, hc]
      rw [hfl]
      exact ih acc

/-- Helper: members of a short prefix survive the final cap of 15. -/
lemma mem_take_of_short_prefix {acc full : List Document} {d : Document}
    (hpre : acc <+: full) (hlen : acc.length ≤ 15) (hd : d ∈ acc) : d ∈ full.take 15 := by
  obtain ⟨r, hr⟩ := hpre
  subst hr
  rw [List.take_append_eq_append_take, List.take_of_length_le hlen]
  exact List.mem_append_left _ hd

/-- C1: whenever some scored candidate carries a requested source year `y`
and at most 15 years are requested, the selection contains a passage whose
source year is `y`. -/
theorem C1_coverage_guarantee (scored : List (Int × Document))
    (requested : List (List Char)) (y : List Char)
    (hne : requested ≠ []) (hy : y ∈ requested) (hcap : requested.length ≤ 15)
    (hex : ∃ p ∈ scored, extract_year_from_metadata p.2.metadata = some y) :
    ∃ d ∈ select_docs scored requested, extract_year_from_metadata d.metadata = some y := by
  rcases coverLoop_covers requested y hy scored [] (by simp) (by simp) hex with h | ⟨d, hd, he⟩
  · simp at h
  · have hlen : (coverLoop requested scored []).length ≤ 15 := by
      have hcl := coverLoop_length requested scored [] (by simp) (by simp)
      simp only [List.length_nil, Nat.add_zero] at hcl
      omega
    have hmem := mem_take_of_short_prefix
      (fillLoop_keeps_acc scored (coverLoop requested scored [])) hlen hd
    refine ⟨d, ?_, he⟩
    unfold select_docs
    rw [if_neg hne]
    exact hmem

/-- C1 witness: a single candidate whose source file encodes 2020_21 covers
the requested year 2020-21. -/
theorem C1_coverage_guarantee_witness :
    ([("2020-21".toList)] ≠ ([] : List (List Char))) ∧
    (("2020-21".toList) ∈ [("2020-21".toList)]) ∧
    ([("2020-21".toList)] : List (List Char)).length ≤ 15 ∧
    (∃ p ∈ [((0 : Int), (⟨("x".toList), ⟨("nabard_2020_21.pdf".toList), ("3".toList)⟩⟩ :
        Document))], extract_year_from_metadata p.2.metadata = some (("2020-21".toList))) ∧
    ∃ d ∈ select_docs
        [((0 : Int), (⟨("x".toList), ⟨("nabard_2020_21.pdf".toList), ("3".toList)⟩⟩ :
          Document))] [("2020-21".toList)],
      extract_year_from_metadata d.metadata = some (("2020-21".toList)) :=
  ⟨by decide, by decide, by decide, by decide,
    C1_coverage_guarantee _ _ _ (by decide) (by decide) (by decide) (by decide)⟩

/-- Helper: sum over a filtered map as a sum of guarded terms. -/
lemma sum_filter_eq_sum_ite (l : List (List Char)) (p : List Char → Bool)
    (f : List Char → Int) :
    ((l.filter p).map f).sum = (l.map (fun a => if p a = true then f a else 0)).sum := by
  induction l with
  | nil => rfl
  | cons a l ih =>
    by_cases h : p a = true
    · simp [List.filter_cons, h, ih]
    · simp [List.filter_cons, h, ih]

/-- Helper: the score as a closed arithmetic expression. -/
lemma score_doc_eq (query : List Char) (requested : List (List Char)) (d : Document) :
    score_doc query requested d =
      ((queryTerms query).map
        (fun t => if isSubstrOf t (lowerStr d.page_content) = true then
          (if t ∈ boostTerms query then (3 : Int) else 1) else 0)).sum +
      (match extract_year_from_metadata d.metadata with
        | some y => if y ∈ requested then (10 : Int) else 0
        | none => 0) -
      (if requested ≠ [] ∧ isSubstrOf (("cumulative".toList)) (lowerStr d.page_content) = true
        then (5 : Int) else 0) := by
  simp only [score_doc]
  rw [sum_filter_eq_sum_ite]

/-- C5: two passages with the same metadata, scored against the same query
and the same non-empty requested years, whose contents agree on every query
term, differ by exactly 5 when exactly one of them contains the substring
cumulative: the one containing it scores 5 lower. -/
theorem C5_cumulative_penalty (query : List Char) (requested : List (List Char))
    (d1 d2 : Document)
    (hmeta : d1.metadata = d2.metadata)
    (hne : requested ≠ [])
    (hc1 : isSubstrOf (("cumulative".toList)) (lowerStr d1.page_content) = true)
    (hc2 : isSubstrOf (("cumulative".toList)) (lowerStr d2.page_content) = false)
    (hterms : ∀ t ∈ queryTerms query,
      isSubstrOf t (lowerStr d1.page_content) = isSubstrOf t (lowerStr d2.page_content)) :
    score_doc query requested d1 = score_doc query requested d2 - 5 := by
  rw [score_doc_eq, score_doc_eq, hmeta]
  have hmap : ((queryTerms query).map
      (fun t => if isSubstrOf t (lowerStr d1.page_content) = true then
        (if t ∈ boostTerms query then (3 : Int) else 1) else 0)) =
      ((queryTerms query).map
      (fun t => if isSubstrOf t (lowerStr d2.page_content) = true then
        (if t ∈ boostTerms query then (3 : Int) else 1) else 0)) := by
    apply List.map_congr_left
    intro t ht
    rw [hterms t ht]
  rw [hmap]
  rw [if_pos ⟨hne, hc1⟩, if_neg (fun h => by rw [hc2] at h; exact absurd h.2 (by simp))]
  omega

/-- C5 witness: two one-term documents with equal metadata, one containing
cumulative, score minus 4 and 1 respectively. -/
theorem C5_cumulative_penalty_witness :
    ((⟨("z cumulative".toList), ⟨("s".toList), ("1".toList)⟩⟩ : Document).metadata =
      (⟨("z".toList), ⟨("s".toList), ("1".toList)⟩⟩ : Document).metadata) ∧
    ([("2020-21".toList)] ≠ ([] : List (List Char))) ∧
    isSubstrOf (("cumulative".toList))
      (lowerStr (("z cumulative".toList))) = true ∧
    isSubstrOf (("cumulative".toList)) (lowerStr (("z".toList))) = false ∧
    (∀ t ∈ queryTerms (("z".toList)),
      isSubstrOf t (lowerStr (("z cumulative".toList))) =
        isSubstrOf t (lowerStr (("z".toList)))) ∧
    score_doc (("z".toList)) [("2020-21".toList)]
        (⟨("z cumulative".toList), ⟨("s".toList), ("1".toList)⟩⟩ : Document) =
      score_doc (("z".toList)) [("2020-21".toList)]
        (⟨("z".toList), ⟨("s".toList), ("1".toList)⟩⟩ : Document) - 5 :=
  ⟨by decide, by decide, by decide, by decide, by decide,
    C5_cumulative_penalty _ _ _ _ (by decide) (by decide) (by decide) (by decide) (by decide)⟩

/-- Helper: a head match survives appending on the right. -/
lemma startsWithC_append : ∀ (p s r : List Char), startsWithC p s = true →
    startsWithC p (s ++ r) = true := by
  intro p
  induction p with
  | nil => intro s r _; rfl
  | cons a p ih =>
    intro s r h
    cases s with
    | nil => simp [startsWithC] at h
    | cons b s =>
      simp only [startsWithC, Bool.and_eq_true] at h
      simp only [List.cons_append, startsWithC, Bool.and_eq_true]
      exact ⟨h.1, ih s r h.2⟩

/-- Helper: the empty pattern occurs in every string. -/
lemma isSubstrOf_nil_left : ∀ s : List Char, isSubstrOf [] s = true := by
  intro s
  cases s with
  | nil => rfl
  | cons x t => simp [isSubstrOf, startsWithC]

/-- Helper: substring occurrence survives appending on the right. -/
lemma isSubstrOf_append_right : ∀ (p s r : List Char), isSubstrOf p s = true →
    isSubstrOf p (s ++ r) = true := by
  intro p s
  induction s with
  | nil =>
    intro r h
    cases p with
    | nil => simpa using isSubstrOf_nil_left r
    | cons a q => simp [isSubstrOf, startsWithC] at h
  | cons x t ih =>
    intro r h
    simp only [isSubstrOf, Bool.or_eq_true] at h
    rcases h with h | h
    · have hs := startsWithC_append p (x :: t) r h
      simp only [List.cons_append] at hs ⊢
      simp [isSubstrOf, hs]
    · have hs := ih r h
      simp only [List.cons_append]
      simp [isSubstrOf, hs]

/-- Helper: one-step unfolding of the whitespace splitter. -/
lemma splitWsAux_cons (c : Char) (rest acc : List Char) :
    splitWsAux (c :: rest) acc =
      if isSpaceChar c then
        (if acc = [] then splitWsAux rest [] else acc.reverse :: splitWsAux rest [])
      else splitWsAux rest (c :: acc) := rfl

/-- Helper: splitting a whitespace-free non-empty tail yields one token. -/
lemma splitWsAux_wordy : ∀ (lt acc : List Char), (∀ c ∈ lt, isSpaceChar c = false) →
    splitWsAux lt acc =
      if (acc.reverse ++ lt) = [] then [] else [acc.reverse ++ lt] := by
  intro lt
  induction lt with
  | nil =>
    intro acc _
    simp only [splitWsAux, List.append_nil]
    by_cases h : acc = []
    · subst h
      simp
    · rw [if_neg h, if_neg (by simpa using h)]
  | cons c rest ih =>
    intro acc hw
    have hc : isSpaceChar c = false := hw c (by simp)
    rw [splitWsAux_cons, if_neg (by simp [hc]),
      ih (c :: acc) (fun x hx => hw x (by simp [hx]))]
    have he : (c :: acc).reverse ++ rest = acc.reverse ++ c :: rest := by simp
    rw [he]

/-- Helper: splitting around a single separating space concatenates the
splits, when the appended token is non-empty and whitespace-free. -/
lemma splitWsAux_space_append : ∀ (a lt acc : List Char),
    lt ≠ [] → (∀ c ∈ lt, isSpaceChar c = false) →
    splitWsAux (a ++ ' ' :: lt) acc = splitWsAux a acc ++ [lt] := by
  intro a
  induction a with
  | nil =>
    intro lt acc hne hw
    simp only [List.nil_append]
    rw [splitWsAux_cons, if_pos (by decide)]
    rw [splitWsAux_wordy lt [] hw]
    simp only [List.reverse_nil, List.nil_append]
    rw [if_neg hne]
    by_cases hacc : acc = []
    · rw [if_pos hacc]
      simp only [splitWsAux]
      rw [if_pos hacc]
      simp
    · rw [if_neg hacc]
      simp only [splitWsAux]
      rw [if_neg hacc]
      simp
  | cons x a ih =>
    intro lt acc hne hw
    rw [List.cons_append, splitWsAux_cons, splitWsAux_cons]
    by_cases hx : isSpaceChar x = true
    · rw [if_pos hx, if_pos hx]
      by_cases hacc : acc = []
      · rw [if_pos hacc, if_pos hacc, ih lt [] hne hw]
      · rw [if_neg hacc, if_neg hacc, ih lt [] hne hw]
        simp
    · rw [if_neg hx, if_neg hx, ih lt (x :: acc) hne hw]

/-- Helper: behaviour of the query tokenizer on an appended term. -/
lemma splitWs_append_wordy (q lt : List Char) (hne : lt ≠ [])
    (hw : ∀ c ∈ lt, isSpaceChar c = false) :
    splitWs (q ++ ' ' :: lt) = splitWs q ++ [lt] :=
  splitWsAux_space_append q lt [] hne hw

/-- Helper: deduplicating after appending one genuinely new token permutes to
consing the token onto the deduplicated list. -/
lemma dedup_append_singleton {t : List Char} {l : List (List Char)} (h : t ∉ l) :
    List.Perm ((l ++ [t]).dedup) (t :: l.dedup) := by
  have h1 : ((l ++ [t]).dedup).Nodup := List.nodup_dedup _
  have h2 : (t :: l.dedup).Nodup :=
    List.nodup_cons.mpr ⟨by simpa using h, List.nodup_dedup _⟩
  rw [List.perm_ext_iff_of_nodup h1 h2]
  intro x
  simp [List.mem_dedup, or_comm]

/-- Helper: boost membership is preserved when the query is extended. -/
lemma boostTerms_mono (query ext : List Char) {t : List Char} (h : t ∈ boostTerms query) :
    t ∈ boostTerms (query ++ ext) := by
  unfold boostTerms at h ⊢
  by_cases hc : isSubstrOf (("sanctioned".toList)) (lowerStr query) = true ∨
      isSubstrOf (("disbursed".toList)) (lowerStr query) = true
  · rw [if_pos hc] at h
    have hl : lowerStr (query ++ ext) = lowerStr query ++ lowerStr ext := by
      simp [lowerStr]
    have hc2 : isSubstrOf (("sanctioned".toList)) (lowerStr (query ++ ext)) = true ∨
        isSubstrOf (("disbursed".toList)) (lowerStr (query ++ ext)) = true := by
      rcases hc with hc | hc
      · exact Or.inl (by rw [hl]; exact isSubstrOf_append_right _ _ _ hc)
      · exact Or.inr (by rw [hl]; exact isSubstrOf_append_right _ _ _ hc)
    rw [if_pos hc2]
    exact h
  · rw [if_neg hc] at h
    simp at h

/-- C6: appending one new whitespace-free term that occurs in the passage
content strictly increases the passage's score. -/
theorem C6_score_monotonicity (query term : List Char) (requested : List (List Char))
    (d : Document)
    (hne : lowerStr term ≠ [])
    (hw : ∀ c ∈ lowerStr term, isSpaceChar c = false)
    (hnew : lowerStr term ∉ splitWs (lowerStr query))
    (hocc : isSubstrOf (lowerStr term) (lowerStr d.page_content) = true) :
    score_doc query requested d < score_doc (query ++ ' ' :: term) requested d := by
  have hsp : toLowerC ' ' = ' ' := by decide
  have hql : lowerStr (query ++ ' ' :: term) = lowerStr query ++ ' ' :: lowerStr term := by
    simp [lowerStr, hsp]
  have hqt : List.Perm (queryTerms (query ++ ' ' :: term))
      ((lowerStr term) :: queryTerms query) := by
    unfold queryTerms
    rw [hql, splitWs_append_wordy _ _ hne hw]
    exact dedup_append_singleton hnew
  rw [score_doc_eq, score_doc_eq]
  have hperm := ((hqt.map
    (fun t => if isSubstrOf t (lowerStr d.page_content) = true then
      (if t ∈ boostTerms (query ++ ' ' :: term) then (3 : Int) else 1) else 0))).sum_eq
  rw [hperm, List.map_cons, List.sum_cons]
  have hmono : ((queryTerms query).map
      (fun t => if isSubstrOf t (lowerStr d.page_content) = true then
        (if t ∈ boostTerms query then (3 : Int) else 1) else 0)).sum ≤
      ((queryTerms query).map
      (fun t => if isSubstrOf t (lowerStr d.page_content) = true then
        (if t ∈ boostTerms (query ++ ' ' :: term) then (3 : Int) else 1) else 0)).sum := by
    apply List.sum_le_sum
    intro t ht
    by_cases hsub : isSubstrOf t (lowerStr d.page_content) = true
    · rw [if_pos hsub, if_pos hsub]
      by_cases hb : t ∈ boostTerms query
      · rw [if_pos hb, if_pos (boostTerms_mono query (' ' :: term) hb)]
      · rw [if_neg hb]
        split
        · omega
        · omega
    · rw [if_neg hsub, if_neg hsub]
  have hpos : (1 : Int) ≤
      (if isSubstrOf (lowerStr term) (lowerStr d.page_content) = true then
        (if (lowerStr term) ∈ boostTerms (query ++ ' ' :: term) then (3 : Int) else 1)
      else 0) := by
    rw [if_pos hocc]
    split
    · omega
    · omega
  omega

/-- C6 witness: extending the query q by the term t, which occurs in the
content t, raises the score from 0 to 1. -/
theorem C6_score_monotonicity_witness :
    (lowerStr (("t".toList)) ≠ []) ∧
    (∀ c ∈ lowerStr (("t".toList)), isSpaceChar c = false) ∧
    (lowerStr (("t".toList)) ∉ splitWs (lowerStr (("q".toList)))) ∧
    isSubstrOf (lowerStr (("t".toList)))
      (lowerStr ((⟨("t".toList), ⟨("s".toList), ("1".toList)⟩⟩ : Document).page_content)) =
      true ∧
    score_doc (("q".toList)) [] (⟨("t".toList), ⟨("s".toList), ("1".toList)⟩⟩ : Document) <
      score_doc (("q".toList) ++ ' ' :: ("t".toList)) []
        (⟨("t".toList), ⟨("s".toList), ("1".toList)⟩⟩ : Document) :=
  ⟨by decide, by decide, by decide, by decide,
    C6_score_monotonicity _ _ _ _ (by decide) (by decide) (by decide) (by decide)⟩
